import Mathlib

/-!
A shallow embedding of the `uint1array` library (src/index.js): a typed array of
1-bit unsigned integers backed by an `ArrayBuffer`, addressed through a
`BitDataView` (a `DataView` subclass adding `getUint1`/`setUint1`), with the
`Uint1Array` sequence type layered on top via a `Proxy` that intercepts numeric
indexed access.

Modelling choices:
* An `ArrayBuffer` is a `List Nat` of bytes; `getUint8` reads modulo 256 and
  `setUint8` stores modulo 256, mirroring the fact that a real `ArrayBuffer`
  only ever holds byte values in `[0, 256)`.
* JS numbers appearing as bit offsets, lengths and constructor arguments are
  modelled as `Int` (the code's own integrality checks `Number.isInteger` are
  then vacuous); the numeric index seen by the `Proxy` handler is modelled as
  `ℚ` so that negative and fractional indices are representable.
* Exceptions (`RangeError`, `TypeError`) are modelled with `Except` for
  operations that produce a value, and with a `result × Option error` pair for
  `Uint1Array.prototype.set`, whose caller-visible state matters even when it
  throws.
* Buffer sharing between a vector and its `subarray` views is expressed by
  explicit state passing: a write through a view produces a new buffer value,
  and the aliasing theorems read the *other* view against that same buffer.
-/

namespace Uint1

/-- A JS `ArrayBuffer`: a fixed-length sequence of bytes. -/
abbrev ByteBuf := List Nat

/-- `DataView.prototype.getUint8`: the byte stored at `byteOffset`.
Real buffers only hold values in `[0, 256)`; reading reduces mod 256 so that
arbitrary `List Nat` states denote the same buffer as their byte truncation.
(Out-of-range reads, which throw in JS, return the default 0; no claim
exercises an out-of-range byte read.) -/
def getUint8 (buf : ByteBuf) (byteOffset : Nat) : Nat :=
  buf.getD byteOffset 0 % 256

/-- `DataView.prototype.setUint8`: store a byte (truncated mod 256) at
`byteOffset`. `List.set` out of range is a no-op; no claim exercises an
out-of-range byte write. -/
def setUint8 (buf : ByteBuf) (byteOffset v : Nat) : ByteBuf :=
  buf.set byteOffset (v % 256)

/-- `const bitMask = 0x80 >> (bitOffset % 8)` from `BitDataView`. -/
def bitMask (bitOffset : Nat) : Nat :=
  128 >>> (bitOffset % 8)

/-- `BitDataView.prototype.getUint1` (src/index.js lines 10-14):
byte index `floor(bitOffset/8)`, mask `0x80 >> (bitOffset % 8)`, result 1 iff
the masked bit is set. -/
def getUint1 (buf : ByteBuf) (bitOffset : Nat) : Nat :=
  if getUint8 buf (bitOffset / 8) &&& bitMask bitOffset ≠ 0 then 1 else 0

/-- `BitDataView.prototype.setUint1` (src/index.js lines 20-29): if the low bit
of `value` is set, OR the mask into the containing byte, else AND with the
32-bit complement of the mask (JS `~bitMask` acts on 32-bit integers). -/
def setUint1 (buf : ByteBuf) (bitOffset value : Nat) : ByteBuf :=
  let byteOffset := bitOffset / 8
  let mask := bitMask bitOffset
  if value &&& 1 = 1 then
    setUint8 buf byteOffset (getUint8 buf byteOffset ||| mask)
  else
    setUint8 buf byteOffset (getUint8 buf byteOffset &&& (4294967295 ^^^ mask))

/-- The JS errors the library can raise. -/
inductive JsError where
  | rangeError
  | typeError
deriving DecidableEq

/-- A `Uint1Array` instance: the `(bitOffset, bitLength)` window plus the
underlying `ArrayBuffer` of its internal `BitDataView`. In JS the buffer is
shared by reference between views; here sharing is expressed by reading
several views against one buffer value. -/
structure Uint1Array where
  bitOffset : Nat
  bitLength : Nat
  buf : ByteBuf
deriving DecidableEq

deriving instance DecidableEq for Except

/-- The invariant every constructor-produced vector satisfies: the window lies
inside the buffer. -/
abbrev Inv (a : Uint1Array) : Prop :=
  a.bitOffset + a.bitLength ≤ 8 * a.buf.length

/-- `get byteLength()` (src/index.js lines 117-119):
`ceil((bitOffset+bitLength)/8) - floor(bitOffset/8)`. -/
def byteLengthOf (a : Uint1Array) : Nat :=
  (a.bitOffset + a.bitLength + 7) / 8 - a.bitOffset / 8

/-- Constructor, length branch (src/index.js lines 40-48): `typeof source !==
'object'`, default 0, reject negatives (integrality of an `Int` argument is
automatic), allocate `ceil(n/8)` zero bytes. -/
def mkFromLength (n : Int) : Except JsError Uint1Array :=
  if n < 0 then .error .rangeError
  else .ok ⟨0, n.toNat, List.replicate ((n.toNat + 7) / 8) 0⟩

/-- Constructor, buffer branch (src/index.js lines 49-67) applied to a genuine
`ArrayBuffer`: default `offset` 0 and `length` to the remaining bits, validate
the window, share the buffer. -/
def mkFromBuffer (buf : ByteBuf) (offset? length? : Option Int) :
    Except JsError Uint1Array :=
  let offset := offset?.getD 0
  let length := length?.getD ((buf.length : Int) * 8 - offset)
  if offset < 0 then .error .rangeError
  else if length < 0 then .error .rangeError
  else if (buf.length : Int) * 8 < offset then .error .rangeError
  else if (buf.length : Int) * 8 < length + offset then .error .rangeError
  else .ok ⟨offset.toNat, length.toNat, buf⟩

/-- Constructor, buffer branch applied to an existing `Uint1Array` `a`:
`'byteLength' in a` holds (the class has a `byteLength` getter), so dispatch
lands here with `source.byteLength` read through the getter; after the window
validations, `new BitDataView(a)` — i.e. `new DataView(a)` — throws a
`TypeError`, because `a` is not an `ArrayBuffer`. -/
def mkFromU1 (a : Uint1Array) (offset? length? : Option Int) :
    Except JsError Uint1Array :=
  let offset := offset?.getD 0
  let length := length?.getD ((byteLengthOf a : Int) * 8 - offset)
  if offset < 0 then .error .rangeError
  else if length < 0 then .error .rangeError
  else if (byteLengthOf a : Int) * 8 < offset then .error .rangeError
  else if (byteLengthOf a : Int) * 8 < length + offset then .error .rangeError
  else .error .typeError

/-- The loop of the iterable branch (src/index.js lines 73-75):
`for i in [0, source.length): internal.setUint1(i + start, source[i])`,
generalized to an arbitrary first bit offset `start` (the constructor uses 0). -/
def initBits (buf : ByteBuf) (xs : List Nat) (start : Nat) : ByteBuf :=
  match xs with
  | [] => buf
  | v :: rest => initBits (setUint1 buf start v) rest (start + 1)

/-- Constructor, iterable/array-like branch (src/index.js lines 68-76): fresh
zero buffer of `ceil(len/8)` bytes, elements written in order via `setUint1`.
This branch cannot throw. -/
def mkFromList (xs : List Nat) : Uint1Array :=
  ⟨0, xs.length, initBits (List.replicate ((xs.length + 7) / 8) 0) xs 0⟩

/-- The shape of the sole constructor argument, determining dispatch
(src/index.js lines 40, 49, 68): a non-object (number/undefined), an object
with a `byteLength` property (an `ArrayBuffer` — or a `Uint1Array`, whose
prototype has a `byteLength` getter), or any other object (array-like). -/
inductive CtorSource where
  | undef
  | num (n : Int)
  | buffer (buf : ByteBuf)
  | u1 (a : Uint1Array)
  | list (xs : List Nat)

/-- `new Uint1Array(source, offset?, length?)` (src/index.js lines 38-76). -/
def uint1ArrayNew (source : CtorSource) (offset? length? : Option Int) :
    Except JsError Uint1Array :=
  match source with
  | .undef => mkFromLength 0
  | .num n => mkFromLength n
  | .buffer buf => mkFromBuffer buf offset? length?
  | .u1 a => mkFromU1 a offset? length?
  | .list xs => .ok (mkFromList xs)

/-- The Proxy `get` trap (src/index.js lines 78-87) on a numeric property key:
`some` bit value when the key is a non-negative integer below `bitLength`
(read at `index + bitOffset`), `none` (JS `undefined`) otherwise. -/
def proxyGet (a : Uint1Array) (index : ℚ) : Option Nat :=
  if index.den = 1 ∧ 0 ≤ index ∧ index < (a.bitLength : ℚ) then
    some (getUint1 a.buf (a.bitOffset + index.num.toNat))
  else none

/-- The Proxy `set` trap (src/index.js lines 88-98) on a numeric property key:
in range, write the bit at `index + bitOffset` and report `true`; out of
range, leave the state untouched and report `false`. -/
def proxySet (a : Uint1Array) (index : ℚ) (value : Nat) : Uint1Array × Bool :=
  if index.den = 1 ∧ 0 ≤ index ∧ index < (a.bitLength : ℚ) then
    ({ a with buf := setUint1 a.buf (a.bitOffset + index.num.toNat) value }, true)
  else (a, false)

/-- `[...this]` (the iterator, src/index.js lines 159-163): `this[i]` for `i`
in `[0, bitLength)`; each such access is in range, hence the bit at
`bitOffset + i`. -/
def toArray (a : Uint1Array) : List Nat :=
  (List.range a.bitLength).map fun i => getUint1 a.buf (a.bitOffset + i)

/-- Normalization of `begin` in `subarray` (src/index.js lines 124-126). -/
def normBegin (a : Uint1Array) (b? : Option Int) : Int :=
  let b := b?.getD 0
  let b := if b < 0 then (a.bitLength : Int) + b else b
  if b < 0 then 0 else b

/-- Normalization of `end` in `subarray` (src/index.js lines 127-129). -/
def normEnd (a : Uint1Array) (e? : Option Int) : Int :=
  let e := e?.getD (a.bitLength : Int)
  let e := if e < 0 then (a.bitLength : Int) + e else e
  if (a.bitLength : Int) < e then (a.bitLength : Int) else e

/-- `Uint1Array.prototype.subarray` (src/index.js lines 123-132): normalize,
compute the window length, and construct over the *same* buffer via the
buffer branch of the constructor (which revalidates and may throw). -/
def subarray (a : Uint1Array) (b? e? : Option Int) : Except JsError Uint1Array :=
  let begin := normBegin a b?
  let e := normEnd a e?
  let length : Int := if e < begin then 0 else e - begin
  mkFromBuffer a.buf (some ((a.bitOffset : Int) + begin)) (some length)

/-- `Uint1Array.prototype.slice` (src/index.js lines 133-135):
`new Uint1Array(this.subarray(start, end))` — the subarray result is itself a
`Uint1Array`, so the constructor dispatches on its `byteLength` property. -/
def slice (a : Uint1Array) (s? e? : Option Int) : Except JsError Uint1Array :=
  match subarray a s? e? with
  | .error e => .error e
  | .ok sub => mkFromU1 sub none none

/-- The copy loop of `Uint1Array.prototype.set` (src/index.js lines 148-150):
`this[i + offset] = array[i]` for `i` in `[0, array.length)`, each write going
through the Proxy `set` trap. -/
def setLoop (a : Uint1Array) (src : List Nat) (offset : Nat) : Uint1Array :=
  match src with
  | [] => a
  | v :: rest => setLoop (proxySet a (offset : ℚ) v).1 rest (offset + 1)

/-- `Uint1Array.prototype.set` (src/index.js lines 143-151): default offset 0,
validate `0 ≤ offset` and `offset + source.length ≤ bitLength` *before* the
copy loop, throwing a `RangeError`; the pair carries the caller-visible state
(unchanged when the validation throws) and the outcome. -/
def setMany (a : Uint1Array) (src : List Nat) (offset? : Option Int) :
    Uint1Array × Option JsError :=
  let offset := offset?.getD 0
  if offset < 0 ∨ (a.bitLength : Int) < offset + src.length then
    (a, some .rangeError)
  else
    (setLoop a src offset.toNat, none)

/-- The default comparator path of `[...].sort((a, b) => a - b)`: a comparison
sort under numeric ascending order. `Array.prototype.sort` with a consistent
comparator produces a sorted permutation (and is stable); it is modelled by
insertion sort. -/
def jsSortAsc (l : List Nat) : List Nat :=
  l.insertionSort (· ≤ ·)

/-- `Uint1Array.prototype.sort` with no comparator (src/index.js lines
275-279): `this.set([...this].sort((a, b) => a - b))`, returning `this`. -/
def sortU (a : Uint1Array) : Uint1Array × Option JsError :=
  setMany a (jsSortAsc (toArray a)) none

end Uint1
section Lemmas

namespace Uint1

lemma bitMask_eq_pow (i : Nat) : bitMask i = 2 ^ (7 - i % 8) := by
  have h : i % 8 < 8 := Nat.mod_lt i (by norm_num)
  simp only [bitMask]
  set k := i % 8 with hk
  interval_cases k <;> rfl

lemma getUint8_lt (buf : ByteBuf) (k : Nat) : getUint8 buf k < 256 :=
  Nat.mod_lt _ (by norm_num)

lemma getUint1_eq_testBit (buf : ByteBuf) (i : Nat) :
    getUint1 buf i = ((getUint8 buf (i / 8)).testBit (7 - i % 8)).toNat := by
  simp only [getUint1, bitMask_eq_pow, Nat.and_two_pow]
  cases h : (getUint8 buf (i / 8)).testBit (7 - i % 8) <;> simp [h]

lemma testBit_mask32 {t : Nat} (ht : t < 32) : Nat.testBit 4294967295 t = true := by
  rw [show (4294967295 : Nat) = 2 ^ 32 - 1 by norm_num, Nat.testBit_two_pow_sub_one]
  exact decide_eq_true ht

lemma getD_set_self {l : List Nat} {i a : Nat} (h : i < l.length) :
    (l.set i a).getD i 0 = a := by
  simp [List.getD, List.getElem?_set_self, h]

lemma getD_set_ne {l : List Nat} {i j a : Nat} (h : i ≠ j) :
    (l.set i a).getD j 0 = l.getD j 0 := by
  simp [List.getD, List.getElem?_set_ne h]

lemma setUint1_length (buf : ByteBuf) (i v : Nat) :
    (setUint1 buf i v).length = buf.length := by
  simp only [setUint1, setUint8]
  split <;> exact List.length_set ..

lemma getUint8_setUint8_self (buf : ByteBuf) (k x : Nat) (h : k < buf.length) :
    getUint8 (setUint8 buf k x) k = x % 256 := by
  simp only [getUint8, setUint8, getD_set_self h, Nat.mod_mod_of_dvd _ dvd_rfl]

lemma getUint8_setUint8_ne (buf : ByteBuf) (k x j : Nat) (h : j ≠ k) :
    getUint8 (setUint8 buf k x) j = getUint8 buf j := by
  simp only [getUint8, setUint8, getD_set_ne (Ne.symm h)]

lemma getUint8_setUint1_ne (buf : ByteBuf) (i v j : Nat) (h : j ≠ i / 8) :
    getUint8 (setUint1 buf i v) j = getUint8 buf j := by
  simp only [setUint1]
  split <;> exact getUint8_setUint8_ne _ _ _ _ h

lemma setUint1_of_length_le (buf : ByteBuf) (i v : Nat) (hk : buf.length ≤ i / 8) :
    setUint1 buf i v = buf := by
  simp only [setUint1, setUint8]
  split <;> exact List.set_eq_of_length_le hk

lemma getUint1_setUint1_self (buf : ByteBuf) (i v : Nat) (h : i < 8 * buf.length) :
    getUint1 (setUint1 buf i v) i = v % 2 := by
  have hk : i / 8 < buf.length := by omega
  have hm : 7 - i % 8 < 8 := by omega
  rw [getUint1_eq_testBit, ← Nat.and_one_is_mod v]
  have h256 : (256 : Nat) = 2 ^ 8 := by norm_num
  have hone : v &&& 1 = 1 ∨ v &&& 1 = 0 := by
    have := Nat.and_le_right (n := v) (m := 1)
    omega
  simp only [setUint1, bitMask_eq_pow]
  rcases hone with h1 | h0
  · rw [if_pos h1, h1, getUint8_setUint8_self _ _ _ hk, h256,
      Nat.testBit_mod_two_pow]
    simp [Nat.testBit_lor, Nat.testBit_two_pow, hm]
  · have hbitM : Nat.testBit 4294967295 (7 - i % 8) = true := testBit_mask32 (by omega)
    rw [if_neg (by omega), h0, getUint8_setUint8_self _ _ _ hk, h256,
      Nat.testBit_mod_two_pow]
    simp [Nat.testBit_land, Nat.testBit_xor, Nat.testBit_two_pow, hbitM, hm]

lemma getUint1_setUint1_ne (buf : ByteBuf) (i v j : Nat) (hne : j ≠ i) :
    getUint1 (setUint1 buf i v) j = getUint1 buf j := by
  by_cases hk : buf.length ≤ i / 8
  · rw [setUint1_of_length_le _ _ _ hk]
  push_neg at hk
  by_cases hb : j / 8 = i / 8
  · have hbit : i % 8 ≠ j % 8 := by omega
    have ht : 7 - j % 8 < 8 := by omega
    have hexp : 7 - i % 8 ≠ 7 - j % 8 := by omega
    have h256 : (256 : Nat) = 2 ^ 8 := by norm_num
    rw [getUint1_eq_testBit, getUint1_eq_testBit, hb]
    simp only [setUint1, bitMask_eq_pow]
    split
    · rw [getUint8_setUint8_self _ _ _ hk, h256, Nat.testBit_mod_two_pow]
      simp [Nat.testBit_lor, Nat.testBit_two_pow, ht, hexp]
    · have hbitM : Nat.testBit 4294967295 (7 - j % 8) = true := testBit_mask32 (by omega)
      rw [getUint8_setUint8_self _ _ _ hk, h256, Nat.testBit_mod_two_pow]
      simp [Nat.testBit_land, Nat.testBit_xor, Nat.testBit_two_pow, hbitM, ht, hexp]
  · rw [getUint1_eq_testBit, getUint1_eq_testBit,
      getUint8_setUint1_ne _ _ _ _ hb]

end Uint1

end Lemmas
namespace Uint1

lemma initBits_length (xs : List Nat) : ∀ (buf : ByteBuf) (s : Nat),
    (initBits buf xs s).length = buf.length := by
  induction xs with
  | nil => intro buf s; rfl
  | cons v rest ih =>
    intro buf s
    rw [initBits, ih, setUint1_length]

lemma getUint1_initBits (xs : List Nat) : ∀ (buf : ByteBuf) (s j : Nat),
    s + xs.length ≤ 8 * buf.length →
    getUint1 (initBits buf xs s) j =
      if s ≤ j ∧ j < s + xs.length then xs.getD (j - s) 0 % 2
      else getUint1 buf j := by
  induction xs with
  | nil =>
    intro buf s j _
    rw [initBits, if_neg (by simp)]
  | cons v rest ih =>
    intro buf s j h
    simp only [List.length_cons] at h
    rw [initBits, ih _ _ _ (by rw [setUint1_length]; omega)]
    simp only [List.length_cons]
    by_cases hj : j = s
    · subst hj
      rw [if_neg (by omega), if_pos (by omega),
        getUint1_setUint1_self _ _ _ (by omega)]
      simp
    · by_cases hin : s + 1 ≤ j ∧ j < s + 1 + rest.length
      · rw [if_pos hin, if_pos (by omega)]
        have hidx : j - s = (j - (s + 1)) + 1 := by omega
        rw [hidx, List.getD_cons_succ]
      · rw [if_neg hin, if_neg (by omega),
          getUint1_setUint1_ne _ _ _ _ hj]

lemma proxyGet_nat (a : Uint1Array) (k : Nat) :
    proxyGet a (k : ℚ) =
      if k < a.bitLength then some (getUint1 a.buf (a.bitOffset + k))
      else none := by
  by_cases h : k < a.bitLength
  · rw [proxyGet, if_pos, if_pos h]
    · norm_num
    · refine ⟨Rat.den_natCast k, by positivity, ?_⟩
      exact_mod_cast h
  · rw [proxyGet, if_neg, if_neg h]
    rintro ⟨-, -, hlt⟩
    exact h (by exact_mod_cast hlt)

lemma proxySet_nat (a : Uint1Array) (k v : Nat) :
    proxySet a (k : ℚ) v =
      if k < a.bitLength then
        ({ a with buf := setUint1 a.buf (a.bitOffset + k) v }, true)
      else (a, false) := by
  by_cases h : k < a.bitLength
  · rw [proxySet, if_pos, if_pos h]
    · norm_num
    · refine ⟨Rat.den_natCast k, by positivity, ?_⟩
      exact_mod_cast h
  · rw [proxySet, if_neg, if_neg h]
    rintro ⟨-, -, hlt⟩
    exact h (by exact_mod_cast hlt)

lemma setLoop_eq_initBits (src : List Nat) : ∀ (a : Uint1Array) (offset : Nat),
    offset + src.length ≤ a.bitLength →
    setLoop a src offset = { a with buf := initBits a.buf src (a.bitOffset + offset) } := by
  induction src with
  | nil => intro a offset _; rfl
  | cons v rest ih =>
    intro a offset h
    simp only [List.length_cons] at h
    rw [setLoop, proxySet_nat, if_pos (by omega),
      ih _ _ (by simpa using by omega)]
    show ({ a with buf := initBits (setUint1 a.buf (a.bitOffset + offset) v) rest (a.bitOffset + (offset + 1)) } : Uint1Array) = _
    rw [show a.bitOffset + (offset + 1) = (a.bitOffset + offset) + 1 by omega]
    rfl

lemma map_range_getD (l : List Nat) (f : Nat → Nat) :
    (List.range l.length).map (fun i => f (l.getD i 0)) = l.map f := by
  apply List.ext_getElem
  · simp
  · intro i h1 h2
    simp only [List.getElem_map, List.getElem_range]
    rw [List.getD_eq_getElem?_getD, List.getElem?_eq_getElem (by simpa using h1)]
    rfl

lemma toArray_length (a : Uint1Array) : (toArray a).length = a.bitLength := by
  simp [toArray]

lemma toArray_mem_lt_two (a : Uint1Array) : ∀ x ∈ toArray a, x < 2 := by
  intro x hx
  simp only [toArray, List.mem_map] at hx
  obtain ⟨i, -, hi⟩ := hx
  rw [getUint1] at hi
  split at hi <;> omega

lemma map_mod_two_of_bits {l : List Nat} (h : ∀ x ∈ l, x < 2) :
    l.map (· % 2) = l := by
  have := List.map_congr_left (l := l) (f := (· % 2)) (g := id)
    (fun x hx => Nat.mod_eq_of_lt (h x hx))
  simpa using this

lemma toArray_setLoop_full (a : Uint1Array) (src : List Nat) (hInv : Inv a)
    (hlen : src.length = a.bitLength) :
    toArray (setLoop a src 0) = src.map (· % 2) := by
  rw [setLoop_eq_initBits _ _ _ (by omega)]
  simp only [toArray, Nat.add_zero]
  have hstep : ∀ i ∈ List.range a.bitLength,
      getUint1 (initBits a.buf src a.bitOffset) (a.bitOffset + i) = src.getD i 0 % 2 := by
    intro i hi
    rw [List.mem_range] at hi
    rw [getUint1_initBits _ _ _ _ (by omega), if_pos (by omega)]
    have hidx : a.bitOffset + i - a.bitOffset = i := by omega
    rw [hidx]
  rw [List.map_congr_left hstep, ← hlen]
  exact map_range_getD src (fun x => x % 2)

lemma mkFromList_eq_setLoop (xs : List Nat) :
    mkFromList xs =
      setLoop ⟨0, xs.length, List.replicate ((xs.length + 7) / 8) 0⟩ xs 0 := by
  rw [setLoop_eq_initBits _ _ _ (by simp)]
  rfl

lemma Inv_mkFromList (xs : List Nat) : Inv (mkFromList xs) := by
  simp only [Inv, mkFromList, initBits_length, List.length_replicate]
  omega

lemma toArray_mkFromList (xs : List Nat) (hx : ∀ x ∈ xs, x < 2) :
    toArray (mkFromList xs) = xs := by
  rw [mkFromList_eq_setLoop,
    toArray_setLoop_full _ _ (by simp [Inv]; omega) rfl,
    map_mod_two_of_bits hx]

end Uint1
namespace Uint1

lemma normBegin_nonneg (a : Uint1Array) (b? : Option Int) : 0 ≤ normBegin a b? := by
  simp only [normBegin]
  split <;> omega

lemma subarray_ok_of_range (a : Uint1Array) (hinv : Inv a) (x y : Nat)
    (hxy : x ≤ y) (hy : y ≤ a.bitLength) :
    subarray a (some (x : ℤ)) (some (y : ℤ)) = .ok ⟨a.bitOffset + x, y - x, a.buf⟩ := by
  have hnb : normBegin a (some (x : ℤ)) = x := by
    have h : ¬((x : ℤ) < 0) := by omega
    simp only [normBegin, Option.getD_some]
    rw [if_neg h, if_neg h]
  have hne : normEnd a (some (y : ℤ)) = y := by
    have h1 : ¬((y : ℤ) < 0) := by omega
    have h2 : ¬((a.bitLength : ℤ) < y) := by omega
    simp only [normEnd, Option.getD_some]
    rw [if_neg h1, if_neg h2]
  simp only [subarray, hnb, hne]
  rw [if_neg (show ¬((y : ℤ) < x) by omega)]
  simp only [mkFromBuffer, Option.getD_some]
  rw [if_neg (by omega), if_neg (by omega), if_neg (by omega), if_neg (by omega)]
  simp only [Except.ok.injEq, Uint1Array.mk.injEq]
  exact ⟨by omega, by omega, trivial⟩

lemma mkFromU1_never_ok (s : Uint1Array) (o? l? : Option Int) (b : Uint1Array) :
    mkFromU1 s o? l? ≠ .ok b := by
  intro h
  simp only [mkFromU1] at h
  repeat' split at h
  all_goals exact Except.noConfusion h

lemma mkFromU1_none_none (s : Uint1Array) :
    mkFromU1 s none none = .error .typeError := by
  simp only [mkFromU1, Option.getD_none]
  split
  · omega
  split
  · omega
  split
  · omega
  split
  · omega
  · rfl

end Uint1
namespace Uint1

/-- C3: for every bit offset within the buffer, `getUint1` and `setUint1`
address the byte at `floor(bitOffset/8)` under the mask `0x80 >> (bitOffset %
8)` — that is, bit `7 - bitOffset % 8` of that byte, MSB-first — `setUint1`
touches no other byte, and get and set agree on this mapping (reading back
after a write yields the written low bit). -/
theorem c3_bit_addressing (buf : ByteBuf) (i v : Nat) (h : i < 8 * buf.length) :
    bitMask i = 2 ^ (7 - i % 8) ∧
    getUint1 buf i = ((getUint8 buf (i / 8)).testBit (7 - i % 8)).toNat ∧
    (∀ j, j ≠ i / 8 → getUint8 (setUint1 buf i v) j = getUint8 buf j) ∧
    getUint1 (setUint1 buf i v) i = v % 2 :=
  ⟨bitMask_eq_pow i, getUint1_eq_testBit buf i,
    fun j hj => getUint8_setUint1_ne buf i v j hj,
    getUint1_setUint1_self buf i v h⟩

/-- Witness for C3 at buffer `[0, 200]`, bit offset 13, value 1. -/
theorem c3_witness :
    bitMask 13 = 2 ^ (7 - 13 % 8) ∧
    getUint1 [0, 200] 13 = ((getUint8 [0, 200] (13 / 8)).testBit (7 - 13 % 8)).toNat ∧
    getUint8 (setUint1 [0, 200] 13 1) 0 = getUint8 [0, 200] 0 ∧
    getUint1 (setUint1 [0, 200] 13 1) 13 = 1 % 2 := by
  obtain ⟨h1, h2, h3, h4⟩ := c3_bit_addressing [0, 200] 13 1 (by decide)
  exact ⟨h1, h2, h3 0 (by decide), h4⟩

/-- C4: for every buffer state, in-range bit offset `i` and `v ∈ {0,1}`, after
`setUint1 i v` a `getUint1 i` returns `v`, and every other bit offset of the
buffer reads the same value as before the write. -/
theorem c4_set_roundtrip_frame (buf : ByteBuf) (i v : Nat)
    (h : i < 8 * buf.length) (hv : v = 0 ∨ v = 1) :
    getUint1 (setUint1 buf i v) i = v ∧
    ∀ j, j ≠ i → getUint1 (setUint1 buf i v) j = getUint1 buf j := by
  constructor
  · rw [getUint1_setUint1_self buf i v h]
    rcases hv with rfl | rfl <;> rfl
  · exact fun j hj => getUint1_setUint1_ne buf i v j hj

/-- Witness for C4 at buffer `[7, 9]`, bit offset 10, value 1, other offset 3. -/
theorem c4_witness :
    getUint1 (setUint1 [7, 9] 10 1) 10 = 1 ∧
    getUint1 (setUint1 [7, 9] 10 1) 3 = getUint1 [7, 9] 3 :=
  ⟨(c4_set_roundtrip_frame [7, 9] 10 1 (by decide) (Or.inr rfl)).1,
    (c4_set_roundtrip_frame [7, 9] 10 1 (by decide) (Or.inr rfl)).2 3 (by decide)⟩

/-- C5: indexed element access through the Proxy never raises: any numeric
index that is not a non-negative integer below `bitLength` (negative,
fractional, or out of range) reads as `none` (JS `undefined`) and writes as a
rejected no-op leaving the vector — hence the buffer — untouched; in
particular the write at index `bitLength` and the reads at `-1` and
`bitLength`. -/
theorem c5_soft_oob (a : Uint1Array) (q : ℚ) (v : Nat)
    (h : ¬(q.den = 1 ∧ 0 ≤ q ∧ q < (a.bitLength : ℚ))) :
    proxyGet a q = none ∧ proxySet a q v = (a, false) ∧
    proxySet a (a.bitLength : ℚ) 1 = (a, false) ∧
    proxyGet a (a.bitLength : ℚ) = none ∧
    proxyGet a (-1 : ℚ) = none := by
  have hN : ¬(((a.bitLength : ℚ)).den = 1 ∧ 0 ≤ (a.bitLength : ℚ) ∧
      (a.bitLength : ℚ) < (a.bitLength : ℚ)) := by
    rintro ⟨-, -, hlt⟩
    exact lt_irrefl _ hlt
  have hneg : ¬(((-1 : ℚ)).den = 1 ∧ 0 ≤ (-1 : ℚ) ∧ (-1 : ℚ) < (a.bitLength : ℚ)) := by
    rintro ⟨-, h0, -⟩
    norm_num at h0
  refine ⟨?_, ?_, ?_, ?_, ?_⟩
  · simp only [proxyGet]
    rw [if_neg h]
  · simp only [proxySet]
    rw [if_neg h]
  · simp only [proxySet]
    rw [if_neg hN]
  · simp only [proxyGet]
    rw [if_neg hN]
  · simp only [proxyGet]
    rw [if_neg hneg]

/-- Witness for C5 on a length-2 vector at index 2 (= its length). -/
theorem c5_witness :
    proxyGet (mkFromList [1, 0]) ((mkFromList [1, 0]).bitLength : ℚ) = none ∧
    proxySet (mkFromList [1, 0]) ((mkFromList [1, 0]).bitLength : ℚ) 1 = (mkFromList [1, 0], false) ∧
    proxySet (mkFromList [1, 0]) ((mkFromList [1, 0]).bitLength : ℚ) 1 = (mkFromList [1, 0], false) ∧
    proxyGet (mkFromList [1, 0]) ((mkFromList [1, 0]).bitLength : ℚ) = none ∧
    proxyGet (mkFromList [1, 0]) (-1 : ℚ) = none :=
  c5_soft_oob (mkFromList [1, 0]) ((mkFromList [1, 0]).bitLength : ℚ) 1 (by simp [mkFromList])

/-- C7: `set(source, offset)` reports a `RangeError` exactly when `offset < 0`
or `offset + source.length > bitLength`; a `RangeError` is the only possible
error; and when it errors the vector is unchanged (the validation runs before
the copy loop, so no partial write occurs). -/
theorem c7_set_validation (a : Uint1Array) (src : List Nat) (o? : Option Int) :
    ((setMany a src o?).2 = some .rangeError ↔
      (o?.getD 0 < 0 ∨ (a.bitLength : ℤ) < o?.getD 0 + src.length)) ∧
    ((setMany a src o?).2 = none ∨ (setMany a src o?).2 = some .rangeError) ∧
    ((setMany a src o?).2 = some .rangeError → (setMany a src o?).1 = a) := by
  simp only [setMany]
  by_cases h : o?.getD 0 < 0 ∨ (a.bitLength : ℤ) < o?.getD 0 + src.length
  · rw [if_pos h]
    simp [h]
  · rw [if_neg h]
    simp [h]

/-- Witness for C7: writing 3 elements into a length-2 vector errors and
leaves the vector unchanged. -/
theorem c7_witness :
    (setMany (mkFromList [0, 0]) [1, 1, 1] none).2 = some .rangeError ∧
    (setMany (mkFromList [0, 0]) [1, 1, 1] none).1 = mkFromList [0, 0] := by
  obtain ⟨h1, -, h3⟩ := c7_set_validation (mkFromList [0, 0]) [1, 1, 1] none
  have he := h1.mpr (by right; decide)
  exact ⟨he, h3 he⟩

/-- C8: constructing from a sequence of 0/1 integers and reading back yields
the original sequence, with `bitLength` equal to the sequence length (and the
constructor dispatches the list to the iterable branch, which cannot throw). -/
theorem c8_roundtrip (xs : List Nat) (hx : ∀ x ∈ xs, x = 0 ∨ x = 1) :
    uint1ArrayNew (.list xs) none none = .ok (mkFromList xs) ∧
    (mkFromList xs).bitLength = xs.length ∧
    toArray (mkFromList xs) = xs := by
  refine ⟨rfl, rfl, toArray_mkFromList xs ?_⟩
  intro x hxm
  rcases hx x hxm with rfl | rfl <;> norm_num

/-- Witness for C8 on `[1, 0, 1]`. -/
theorem c8_witness :
    uint1ArrayNew (.list [1, 0, 1]) none none = .ok (mkFromList [1, 0, 1]) ∧
    (mkFromList [1, 0, 1]).bitLength = [1, 0, 1].length ∧
    toArray (mkFromList [1, 0, 1]) = [1, 0, 1] :=
  c8_roundtrip [1, 0, 1] (by decide)

/-- C9: `sort()` with no comparator: `Uint1Array.of(1,0,1,0).sort()` yields
`[0,0,1,1]`; in general, for any vector whose window lies in its buffer, the
sort succeeds in place and afterwards the elements are a non-decreasing
permutation of the previous elements. -/
theorem c9_sort_default (a : Uint1Array) (hinv : Inv a) :
    toArray (sortU (mkFromList [1, 0, 1, 0])).1 = [0, 0, 1, 1] ∧
    (sortU a).2 = none ∧
    (toArray (sortU a).1).Sorted (· ≤ ·) ∧
    (toArray (sortU a).1).Perm (toArray a) := by
  have hlen : (jsSortAsc (toArray a)).length = a.bitLength := by
    rw [jsSortAsc, (List.perm_insertionSort (· ≤ ·) (toArray a)).length_eq,
      toArray_length]
  have hcond : ¬((0 : ℤ) < 0 ∨ (a.bitLength : ℤ) < 0 + (jsSortAsc (toArray a)).length) := by
    rw [hlen]
    omega
  have hnone : (sortU a).2 = none := by
    simp only [sortU, setMany, Option.getD_none]
    rw [if_neg hcond]
  have hres : (sortU a).1 = setLoop a (jsSortAsc (toArray a)) 0 := by
    simp only [sortU, setMany, Option.getD_none]
    rw [if_neg hcond]
    rfl
  have hbits : ∀ x ∈ jsSortAsc (toArray a), x < 2 := by
    intro x hx
    rw [jsSortAsc] at hx
    exact toArray_mem_lt_two a x ((List.perm_insertionSort (· ≤ ·) (toArray a)).mem_iff.mp hx)
  have htoarr : toArray (sortU a).1 = jsSortAsc (toArray a) := by
    rw [hres, toArray_setLoop_full a _ hinv hlen, map_mod_two_of_bits hbits]
  refine ⟨by decide, hnone, ?_, ?_⟩
  · rw [htoarr]
    exact List.sorted_insertionSort _ _
  · rw [htoarr]
    exact List.perm_insertionSort _ _

/-- Witness for C9 on `[1, 1, 0]`. -/
theorem c9_witness :
    toArray (sortU (mkFromList [1, 0, 1, 0])).1 = [0, 0, 1, 1] ∧
    (sortU (mkFromList [1, 1, 0])).2 = none ∧
    (toArray (sortU (mkFromList [1, 1, 0])).1).Sorted (· ≤ ·) ∧
    (toArray (sortU (mkFromList [1, 1, 0])).1).Perm (toArray (mkFromList [1, 1, 0])) :=
  c9_sort_default (mkFromList [1, 1, 0]) (by decide)

/-- C10: passing an existing `Uint1Array` as the sole constructor argument
never produces a vector (the `byteLength` getter routes dispatch to the
raw-buffer branch for every offset/length) and, with no further arguments,
fails with the `TypeError` raised by the `DataView` constructor. -/
theorem c10_construct_from_self_fails (a : Uint1Array) (o? l? : Option Int) :
    (∀ b, uint1ArrayNew (.u1 a) o? l? ≠ .ok b) ∧
    uint1ArrayNew (.u1 a) none none = .error .typeError :=
  ⟨fun b => mkFromU1_never_ok a o? l? b, mkFromU1_none_none a⟩

/-- C1 (the spec's intent, contradicted by the code): `slice` never returns a
copy — whenever the inner `subarray` call succeeds, the outer
`new Uint1Array(subarrayResult)` throws a `TypeError`, because the subarray
result (having a `byteLength` property) is dispatched to the `DataView`
constructor, which rejects non-`ArrayBuffer` arguments. -/
theorem c1_slice_always_throws (a : Uint1Array) (s? e? : Option Int)
    (sub : Uint1Array) (h : subarray a s? e? = .ok sub) :
    slice a s? e? = .error .typeError := by
  simp only [slice, h]
  exact mkFromU1_none_none sub

/-- Witness for C1: slicing the vector built from `[1,0,1,0]` throws. -/
theorem c1_witness : slice (mkFromList [1, 0, 1, 0]) none none = .error .typeError :=
  c1_slice_always_throws (mkFromList [1, 0, 1, 0]) none none ⟨0, 4, [160]⟩ (by decide)

/-- C6 (amended): when `begin > end` after normalization AND the window start
`bitOffset + begin` still lies within the buffer's bit capacity, `subarray`
returns a length-0 view over the same buffer without throwing. (As originally
stated — for *every* `begin` — the claim is false: see the counterexample,
where `begin` beyond the buffer's bit capacity makes the constructor throw a
`RangeError`.) -/
theorem c6_subarray_empty (a : Uint1Array) (b? e? : Option Int)
    (hgt : normEnd a e? < normBegin a b?)
    (hle : (a.bitOffset : ℤ) + normBegin a b? ≤ 8 * a.buf.length) :
    ∃ s, subarray a b? e? = .ok s ∧ s.bitLength = 0 ∧ s.buf = a.buf := by
  have h0 : 0 ≤ normBegin a b? := normBegin_nonneg a b?
  refine ⟨⟨((a.bitOffset : ℤ) + normBegin a b?).toNat, (0 : ℤ).toNat, a.buf⟩, ?_, rfl, rfl⟩
  simp only [subarray]
  rw [if_pos hgt]
  simp only [mkFromBuffer, Option.getD_some]
  rw [if_neg (by omega), if_neg (by omega), if_neg (by omega), if_neg (by omega)]

/-- Counterexample for C6 as stated: on the length-8 vector from
`new Uint1Array(8)` (one backing byte), `subarray(9)` has `begin = 9 > end =
8` after normalization, yet it throws a `RangeError` instead of returning a
length-0 vector. -/
theorem c6_counterexample :
    mkFromLength 8 = .ok ⟨0, 8, [0]⟩ ∧
    normEnd ⟨0, 8, [0]⟩ none < normBegin ⟨0, 8, [0]⟩ (some 9) ∧
    subarray ⟨0, 8, [0]⟩ (some 9) none = .error .rangeError := by
  decide

/-- Witness for C6 (amended): length-5 vector over one byte, `subarray(7)`
yields a length-0 view without throwing. -/
theorem c6_witness :
    ∃ s, subarray (mkFromList [0, 0, 0, 0, 0]) (some 7) none = .ok s ∧
      s.bitLength = 0 ∧ s.buf = (mkFromList [0, 0, 0, 0, 0]).buf :=
  c6_subarray_empty (mkFromList [0, 0, 0, 0, 0]) (some 7) none (by decide) (by decide)

end Uint1
namespace Uint1

/-- C2: `b = a.subarray(x, y)` (for `x ≤ y ≤ a.bitLength`) shares `a`'s byte
buffer with window `(a.bitOffset + x, y - x)`; writing `v ∈ {0,1}` through `b`
at local index `k < y - x` is observed by reading `a` at index `x + k` against
the shared (post-write) buffer, and writing through `a` at `x + k` is observed
by reading `b` at `k` against the shared buffer. -/
theorem c2_subarray_view_aliasing (a : Uint1Array) (hinv : Inv a)
    (x y k v : Nat) (hxy : x ≤ y) (hy : y ≤ a.bitLength) (hk : k < y - x)
    (hv : v = 0 ∨ v = 1) :
    ∃ b, subarray a (some (x : ℤ)) (some (y : ℤ)) = .ok b ∧
      b.bitOffset = a.bitOffset + x ∧ b.bitLength = y - x ∧ b.buf = a.buf ∧
      (proxySet b (k : ℚ) v).2 = true ∧
      proxyGet ⟨a.bitOffset, a.bitLength, (proxySet b (k : ℚ) v).1.buf⟩
        ((x + k : ℕ) : ℚ) = some v ∧
      proxyGet ⟨a.bitOffset + x, y - x, (proxySet a ((x + k : ℕ) : ℚ) v).1.buf⟩
        (k : ℚ) = some v := by
  have hxk : x + k < a.bitLength := by omega
  have hbound : a.bitOffset + x + k < 8 * a.buf.length := by
    have := hinv
    omega
  have hmod : v % 2 = v := by rcases hv with rfl | rfl <;> rfl
  refine ⟨⟨a.bitOffset + x, y - x, a.buf⟩,
    subarray_ok_of_range a hinv x y hxy hy, rfl, rfl, rfl, ?_, ?_, ?_⟩
  · rw [proxySet_nat, if_pos (show k < (⟨a.bitOffset + x, y - x, a.buf⟩ : Uint1Array).bitLength from hk)]
  · rw [proxySet_nat, if_pos (show k < (⟨a.bitOffset + x, y - x, a.buf⟩ : Uint1Array).bitLength from hk)]
    rw [proxyGet_nat]
    rw [if_pos (show x + k < _ from hxk)]
    show some (getUint1 (setUint1 a.buf (a.bitOffset + x + k) v) (a.bitOffset + (x + k))) = some v
    rw [show a.bitOffset + (x + k) = a.bitOffset + x + k from by omega,
      getUint1_setUint1_self _ _ _ hbound, hmod]
  · rw [proxySet_nat, if_pos (show x + k < a.bitLength from hxk)]
    rw [proxyGet_nat]
    rw [if_pos (show k < _ from hk)]
    show some (getUint1 (setUint1 a.buf (a.bitOffset + (x + k)) v) (a.bitOffset + x + k)) = some v
    rw [show a.bitOffset + (x + k) = a.bitOffset + x + k from by omega,
      getUint1_setUint1_self _ _ _ hbound, hmod]

/-- Witness for C2: length-8 vector, subarray window (2,5), local index 1,
value 1. -/
theorem c2_witness :
    ∃ b, subarray (mkFromList [0, 0, 0, 0, 0, 0, 0, 0]) (some ((2 : ℕ) : ℤ)) (some ((5 : ℕ) : ℤ)) = .ok b ∧
      b.bitOffset = (mkFromList [0, 0, 0, 0, 0, 0, 0, 0]).bitOffset + 2 ∧
      b.bitLength = 5 - 2 ∧ b.buf = (mkFromList [0, 0, 0, 0, 0, 0, 0, 0]).buf ∧
      (proxySet b ((1 : ℕ) : ℚ) 1).2 = true ∧
      proxyGet ⟨(mkFromList [0, 0, 0, 0, 0, 0, 0, 0]).bitOffset,
        (mkFromList [0, 0, 0, 0, 0, 0, 0, 0]).bitLength,
        (proxySet b ((1 : ℕ) : ℚ) 1).1.buf⟩ ((2 + 1 : ℕ) : ℚ) = some 1 ∧
      proxyGet ⟨(mkFromList [0, 0, 0, 0, 0, 0, 0, 0]).bitOffset + 2, 5 - 2,
        (proxySet (mkFromList [0, 0, 0, 0, 0, 0, 0, 0]) ((2 + 1 : ℕ) : ℚ) 1).1.buf⟩
        ((1 : ℕ) : ℚ) = some 1 :=
  c2_subarray_view_aliasing (mkFromList [0, 0, 0, 0, 0, 0, 0, 0]) (by decide)
    2 5 1 1 (by decide) (by decide) (by decide) (Or.inr rfl)

end Uint1
